import Mathlib

/-!
Verification of the MoSQL SQL-building layer (`mosql/common2.py`).

The visible source file `common2.py` declares the clause templates and the
four statement constructors (`insert`, `select`, `update`, `delete`).  The
core formatting engine it imports (`mosql/util2.py`: scalar formatters,
combinators, the condition resolver `build_where`/`build_set`, and the
`Clause`/`Statement` classes) is not part of the visible sources, so those
definitions are modelled from the specification.
-/

namespace Mosql

/-- A Python value as it may appear in the arguments of the SQL builders:
`None`, a string, an integer, a `raw`-wrapped string, a bare `param`
sentinel, a named `param`, a sequence, a mapping (dict, in native iteration
order), an explicit ordered sequence of key/value pairs, or a value of a
type none of the formatters recognises. -/
inductive PyVal where
  | vNone
  | vStr (s : String)
  | vInt (n : Int)
  | vRaw (s : String)
  | vParamAuto
  | vParamNamed (n : String)
  | vSeq (l : List PyVal)
  | vMap (l : List (String × PyVal))
  | vPairs (l : List (String × PyVal))
  | vBad

/-- Map a fallible function over a list, failing when any element fails. -/
def mapOpt (f : α → Option β) : List α → Option (List β)
  | [] => some []
  | x :: xs =>
    match f x, mapOpt f xs with
    | some y, some ys => some (y :: ys)
    | _, _ => none

/-- Double every single-quote character of a character list. -/
def escSingleQuotes : List Char → List Char
  | [] => []
  | c :: cs =>
    if c = '\x27' then '\x27' :: '\x27' :: escSingleQuotes cs
    else c :: escSingleQuotes cs

/-- Modelled from the spec: the escaping applied by the missing `value`
formatter of `mosql/util2.py` to string literals — internal single quotes
are doubled. -/
def escapeQuotes (s : String) : String :=
  String.mk (escSingleQuotes s.data)

/-- Modelled from the spec: the scalar half of the missing `value`
formatter of `mosql/util2.py`.  `None` becomes `NULL`, strings are quoted
and escaped, numbers are emitted unquoted, `raw` passes through verbatim,
a named `param` becomes a `%(name)s` placeholder; anything else is not a
renderable scalar (a `FormatError`, modelled as `none`). -/
def valueScalar : PyVal → Option String
  | .vNone => some "NULL"
  | .vStr s => some ("'" ++ escapeQuotes s ++ "'")
  | .vInt n => some (toString n)
  | .vRaw s => some s
  | .vParamNamed n => some ("%(" ++ n ++ ")s")
  | _ => none

/-- Modelled from the spec: the scalar half of the missing `identifier`
formatter of `mosql/util2.py` — names are wrapped in double quotes, `raw`
input is emitted verbatim, anything else is a `FormatError`. -/
def identifierScalar : PyVal → Option String
  | .vStr s => some ("\"" ++ s ++ "\"")
  | .vRaw s => some s
  | _ => none

/-- Lower-case every character of a string. -/
def lowerStr (s : String) : String :=
  String.mk (s.data.map Char.toLower)

/-- Upper-case every character of a string. -/
def upperStr (s : String) : String :=
  String.mk (s.data.map Char.toUpper)

/-- Modelled from the spec: the operator tokens recognised at the end of a
condition key by the missing condition resolver of `mosql/util2.py`. -/
def opTokens : List String :=
  ["=", "!=", "<>", "<", "<=", ">", ">=", "like", "in", "is"]

/-- Split a character list around its last space character, returning the
characters before and after it. -/
def breakLastSpace : List Char → Option (List Char × List Char)
  | [] => none
  | c :: cs =>
    match breakLastSpace cs with
    | some (pre, post) => some (c :: pre, post)
    | none => if c = ' ' then some ([], cs) else none

/-- Modelled from the spec: the key parsing of the missing condition
resolver of `mosql/util2.py` — split the key on its last whitespace
boundary; when the trailing token is a recognised operator
(case-insensitively), return the column name and the upper-cased operator,
otherwise treat the whole key as the column name. -/
def splitKey (k : String) : Option (String × String) :=
  match breakLastSpace k.data with
  | some (pre, post) =>
    let tok := String.mk post
    if lowerStr tok ∈ opTokens then some (String.mk pre, upperStr tok)
    else none
  | none => none

/-- Modelled from the spec: a bare `param` sentinel binds its placeholder
name from the enclosing column key at resolution time. -/
def resolveParam (col : String) : PyVal → PyVal
  | .vParamAuto => .vParamNamed col
  | v => v

/-- Modelled from the spec: rendering of one condition by the missing
condition resolver of `mosql/util2.py`.  The operator is the explicit
trailing token of the key when present, otherwise it is inferred from the
value (`None` gives `IS`, a non-string sequence gives `IN`, anything else
gives `=`); the condition renders as `identifier(column) OP operand`, with
a sequence operand parenthesised as a comma list. -/
def renderCond (k : String) (v : PyVal) : Option String :=
  let co : String × Option String :=
    match splitKey k with
    | some (c, o) => (c, some o)
    | none => (k, none)
  let col := co.1
  let v2 := resolveParam col v
  let op : String :=
    match co.2 with
    | some o => o
    | none =>
      match v2 with
      | .vNone => "IS"
      | .vSeq _ => "IN"
      | _ => "="
  let operand : Option String :=
    match v2 with
    | .vSeq l => (mapOpt valueScalar l).map (fun ss => "(" ++ String.intercalate ", " ss ++ ")")
    | x => valueScalar x
  match identifierScalar (.vStr col), operand with
  | some c, some o => some (c ++ " " ++ op ++ " " ++ o)
  | _, _ => none

/-- Modelled from the spec: rendering of one assignment by the missing
`build_set` of `mosql/util2.py`, as `"column"=value`. -/
def renderAssign (k : String) (v : PyVal) : Option String :=
  match identifierScalar (.vStr k), valueScalar (resolveParam k v) with
  | some c, some s => some (c ++ "=" ++ s)
  | _, _ => none

/-- Lexicographic order on character lists, by code point. -/
def charListLe : List Char → List Char → Bool
  | [], _ => true
  | _ :: _, [] => false
  | a :: as, b :: bs =>
    if a.toNat < b.toNat then true
    else if b.toNat < a.toNat then false
    else charListLe as bs

/-- Strict lexicographic order on character lists, by code point. -/
def charListLt : List Char → List Char → Bool
  | [], [] => false
  | [], _ :: _ => true
  | _ :: _, [] => false
  | a :: as, b :: bs =>
    if a.toNat < b.toNat then true
    else if b.toNat < a.toNat then false
    else charListLt as bs

/-- Key order used to sort a mapping's entries: lexicographic order of the
key strings. -/
def keyLe (a b : String × PyVal) : Prop := charListLe a.1.data b.1.data = true

/-- Strict key order on a mapping's entries. -/
def keyLt (a b : String × PyVal) : Prop := charListLt a.1.data b.1.data = true

instance : DecidableRel keyLe := fun a b =>
  inferInstanceAs (Decidable (charListLe a.1.data b.1.data = true))

/-- Modelled from the spec: the missing condition resolver sorts a
mapping's entries by key before rendering. -/
def sortPairs (l : List (String × PyVal)) : List (String × PyVal) :=
  List.insertionSort keyLe l

/-- Render a list of conditions and join them with ` AND `. -/
def renderConds (l : List (String × PyVal)) : Option String :=
  (mapOpt (fun kv => renderCond kv.1 kv.2) l).map (String.intercalate " AND ")

/-- Render a list of assignments and join them with `, `. -/
def renderSets (l : List (String × PyVal)) : Option String :=
  (mapOpt (fun kv => renderAssign kv.1 kv.2) l).map (String.intercalate ", ")

/-- Modelled from the spec: the missing `build_where` of `mosql/util2.py`.
A mapping is rendered in ascending key order, an explicit pair sequence in
the caller's order; conditions are joined with ` AND `; any other input is
a `FormatError`. -/
def build_where : PyVal → Option String
  | .vMap m => renderConds (sortPairs m)
  | .vPairs p => renderConds p
  | _ => none

/-- Modelled from the spec: the missing `build_set` of `mosql/util2.py`. -/
def build_set : PyVal → Option String
  | .vMap m => renderSets (sortPairs m)
  | .vPairs p => renderSets p
  | _ => none

/-- Intermediate state of a formatting pipeline: an unformatted value, a
single formatted string, or a list of formatted strings. -/
inductive Frag where
  | v (x : PyVal)
  | s (t : String)
  | ss (ts : List String)

/-- Modelled from the spec: the closed set of value transforms that the
missing `mosql/util2.py` supplies and `common2.py` composes into
formatting chains. -/
inductive Transform where
  | value
  | identifier
  | concat_by_comma
  | concat_by_space
  | paren
  | build_where
  | build_set
deriving DecidableEq

/-- Modelled from the spec: the behaviour of each transform of the missing
`mosql/util2.py` on a pipeline fragment.  `value`/`identifier` format a
single value or map over a sequence; the concatenators join an
already-formatted list; `paren` wraps non-empty text and passes empty text
through; the condition resolvers consume the raw bound value.  Any
unhandled shape is a `FormatError`. -/
def runT : Transform → Frag → Option Frag
  | .value, .v (.vSeq l) => (mapOpt valueScalar l).map .ss
  | .value, .v x => (valueScalar x).map .s
  | .identifier, .v (.vSeq l) => (mapOpt identifierScalar l).map .ss
  | .identifier, .v x => (identifierScalar x).map .s
  | .concat_by_comma, .ss ts => some (.s (String.intercalate ", " ts))
  | .concat_by_comma, .s t => some (.s t)
  | .concat_by_space, .ss ts => some (.s (String.intercalate " " ts))
  | .concat_by_space, .s t => some (.s t)
  | .paren, .s t => some (.s (if t = "" then "" else "(" ++ t ++ ")"))
  | .build_where, .v x => (build_where x).map .s
  | .build_set, .v x => (build_set x).map .s
  | _, _ => none

/-- Run a formatting chain left to right over a fragment. -/
def runPipeline : List Transform → Frag → Option Frag
  | [], f => some f
  | t :: ts, f =>
    match runT t f with
    | some f2 => runPipeline ts f2
    | none => none

/-- Formatting chain `(value,)` of `common2.py`. -/
def single_value : List Transform := [.value]

/-- Formatting chain `(identifier,)` of `common2.py`. -/
def single_identifier : List Transform := [.identifier]

/-- Formatting chain `(identifier, concat_by_comma)` of `common2.py`. -/
def identifier_list : List Transform := [.identifier, .concat_by_comma]

/-- Formatting chain `(build_where,)` of `common2.py`. -/
def where_list : List Transform := [.build_where]

/-- Formatting chain `(build_set,)` of `common2.py`. -/
def set_list : List Transform := [.build_set]

/-- Formatting chain `(concat_by_space,)` of `common2.py`. -/
def statement_list : List Transform := [.concat_by_space]

/-- Modelled from the spec: the `Clause` class of the missing
`mosql/util2.py` — a named, optional, pipeline-driven fragment; a hidden
clause never emits its own keyword. -/
structure Clause where
  name : String
  pipeline : List Transform
  hidden : Bool := false
deriving DecidableEq

/-- Modelled from the spec: `Clause.format` of the missing
`mosql/util2.py`.  An absent binding (or Python `None`) yields the empty
string; otherwise the bound value is threaded through the pipeline; an
empty final result stays empty; a non-empty result is prefixed with the
upper-cased clause keyword unless the clause is hidden. -/
def Clause.format (c : Clause) (bound : Option PyVal) : Option String :=
  match bound with
  | none => some ""
  | some .vNone => some ""
  | some x =>
    match runPipeline c.pipeline (.v x) with
    | some (.s t) =>
      if t = "" then some ""
      else if c.hidden then some t
      else some (upperStr c.name ++ " " ++ t)
    | _ => none

/-- Modelled from the spec: the `Statement` class of the missing
`mosql/util2.py` — an ordered collection of clauses. -/
structure Statement where
  clauses : List Clause

/-- Look up a clause name in an arguments mapping (first binding wins). -/
def lookupArg (args : List (String × PyVal)) (n : String) : Option PyVal :=
  match args with
  | [] => none
  | (k, v) :: rest => if k = n then some v else lookupArg rest n

/-- Modelled from the spec: `Statement.format` of the missing
`mosql/util2.py` — format every clause in declaration order, drop the
empty renderings, and join the survivors with single spaces; a failing
clause fails the whole statement. -/
def Statement.format (st : Statement) (args : List (String × PyVal)) : Option String :=
  (mapOpt (fun c => c.format (lookupArg args c.name)) st.clauses).map
    (fun parts => String.intercalate " " (parts.filter (fun p => p ≠ "")))

/-- Bind a clause name in an arguments mapping, replacing any previous
binding (dict assignment). -/
def setArg (n : String) (v : PyVal) (args : List (String × PyVal)) : List (String × PyVal) :=
  (n, v) :: args.filter (fun kv => kv.1 ≠ n)

/-- Remove a clause name from an arguments mapping (dict `del`). -/
def delArg (n : String) (args : List (String × PyVal)) : List (String × PyVal) :=
  args.filter (fun kv => kv.1 ≠ n)

/-- Move the binding of `old`, when present, to `new` (the
`order_by`/`group_by` renaming steps of `select` in `common2.py`). -/
def renameArg (old new : String) (args : List (String × PyVal)) : List (String × PyVal) :=
  match lookupArg args old with
  | some v => setArg new v (delArg old args)
  | none => args

/-- Clause `insert = Clause('insert into', single_identifier)` of `common2.py`. -/
def insert_cl : Clause := { name := "insert into", pipeline := single_identifier }

/-- Clause `columns` of `common2.py` (hidden). -/
def columns_cl : Clause :=
  { name := "columns", pipeline := [.identifier, .concat_by_comma, .paren], hidden := true }

/-- Clause `values` of `common2.py`. -/
def values_cl : Clause := { name := "values", pipeline := [.value, .concat_by_comma, .paren] }

/-- Clause `returning` of `common2.py`. -/
def returning_cl : Clause := { name := "returning", pipeline := identifier_list }

/-- Statement `insert_into_stat` of `common2.py`. -/
def insert_into_stat : Statement := ⟨[insert_cl, columns_cl, values_cl, returning_cl]⟩

/-- Clause `select` of `common2.py`. -/
def select_cl : Clause := { name := "select", pipeline := identifier_list }

/-- Clause `from_` of `common2.py`. -/
def from_cl : Clause := { name := "from", pipeline := identifier_list }

/-- Clause `joins` of `common2.py` (hidden). -/
def joins_cl : Clause := { name := "joins", pipeline := statement_list, hidden := true }

/-- Clause `where` of `common2.py`. -/
def where_cl : Clause := { name := "where", pipeline := where_list }

/-- Clause `group_by` of `common2.py`. -/
def group_by_cl : Clause := { name := "group by", pipeline := identifier_list }

/-- Clause `having` of `common2.py`. -/
def having_cl : Clause := { name := "having", pipeline := where_list }

/-- Clause `order_by` of `common2.py`. -/
def order_by_cl : Clause := { name := "order by", pipeline := identifier_list }

/-- Clause `limit` of `common2.py`. -/
def limit_cl : Clause := { name := "limit", pipeline := single_value }

/-- Clause `offset` of `common2.py`. -/
def offset_cl : Clause := { name := "offset", pipeline := single_value }

/-- Statement `select_stat` of `common2.py`. -/
def select_stat : Statement :=
  ⟨[select_cl, from_cl, joins_cl, where_cl, group_by_cl, having_cl,
    order_by_cl, limit_cl, offset_cl]⟩

/-- Clause `update` of `common2.py`. -/
def update_cl : Clause := { name := "update", pipeline := single_identifier }

/-- Clause `set` of `common2.py`. -/
def set_cl : Clause := { name := "set", pipeline := set_list }

/-- Statement `update_stat` of `common2.py`. -/
def update_stat : Statement := ⟨[update_cl, set_cl, where_cl, returning_cl]⟩

/-- Clause `delete` of `common2.py`. -/
def delete_cl : Clause := { name := "delete from", pipeline := single_identifier }

/-- Statement `delete_stat` of `common2.py`. -/
def delete_stat : Statement := ⟨[delete_cl, where_cl, returning_cl]⟩

/-- The function `select` of `common2.py`: bind `from`, `where` and
`select`, rename `order_by`/`group_by` to their clause names, and format
`select_stat`. -/
def select (table whereArg selectArg : PyVal)
    (clauses_args : List (String × PyVal)) : Option String :=
  Statement.format select_stat
    (renameArg "group_by" "group by"
      (renameArg "order_by" "order by"
        (setArg "select" selectArg
          (setArg "where" whereArg
            (setArg "from" table clauses_args)))))

/-- The function `insert` of `common2.py`: bind `insert into`; when
`values` is `None`, unzip the given pairs (a mapping's items or an
explicit pair sequence) into the `columns` and `values` bindings,
otherwise bind `columns` and `values` directly; then format
`insert_into_stat`.  Unzipping a non-pair or empty input is a Python
error, modelled as `none`. -/
def insert (table pairs_or_columns valuesArg : PyVal)
    (clauses_args : List (String × PyVal)) : Option String :=
  let a := setArg "insert into" table clauses_args
  match valuesArg with
  | .vNone =>
    match pairs_or_columns with
    | .vMap [] => none
    | .vPairs [] => none
    | .vMap pairs =>
      Statement.format insert_into_stat
        (setArg "values" (.vSeq (pairs.map (fun kv => kv.2)))
          (setArg "columns" (.vSeq (pairs.map (fun kv => PyVal.vStr kv.1))) a))
    | .vPairs pairs =>
      Statement.format insert_into_stat
        (setArg "values" (.vSeq (pairs.map (fun kv => kv.2)))
          (setArg "columns" (.vSeq (pairs.map (fun kv => PyVal.vStr kv.1))) a))
    | _ => none
  | v =>
    Statement.format insert_into_stat
      (setArg "values" v (setArg "columns" pairs_or_columns a))

/-- The function `update` of `common2.py`. -/
def update (table whereArg setsArg : PyVal)
    (clauses_args : List (String × PyVal)) : Option String :=
  Statement.format update_stat
    (setArg "set" setsArg (setArg "where" whereArg (setArg "update" table clauses_args)))

/-- The function `delete` of `common2.py`. -/
def delete (table whereArg : PyVal)
    (clauses_args : List (String × PyVal)) : Option String :=
  Statement.format delete_stat
    (setArg "where" whereArg (setArg "delete from" table clauses_args))

/-- Two arguments mappings agree on every name other than `bad`. -/
def EqExcept (a a' : List (String × PyVal)) (bad : String) : Prop :=
  ∀ n, n ≠ bad → lookupArg a n = lookupArg a' n

theorem charListLe_total : ∀ x y, charListLe x y = true ∨ charListLe y x = true := by
  intro x
  induction x with
  | nil => intro y; exact Or.inl rfl
  | cons a as ih =>
    intro y
    cases y with
    | nil => exact Or.inr rfl
    | cons b bs =>
      simp only [charListLe]
      rcases Nat.lt_trichotomy a.toNat b.toNat with h | h | h
      · exact Or.inl (by simp [h])
      · have h1 : ¬ a.toNat < b.toNat := by omega
        have h2 : ¬ b.toNat < a.toNat := by omega
        rcases ih bs with h3 | h3
        · exact Or.inl (by simp [h1, h2, h3])
        · exact Or.inr (by simp [h1, h2, h3])
      · exact Or.inr (by simp [h])

theorem charListLe_trans :
    ∀ x y z, charListLe x y = true → charListLe y z = true → charListLe x z = true := by
  intro x
  induction x with
  | nil => intro y z _ _; rfl
  | cons a as ih =>
    intro y z hxy hyz
    cases y with
    | nil => simp [charListLe] at hxy
    | cons b bs =>
      cases z with
      | nil => simp [charListLe] at hyz
      | cons c cs =>
        simp only [charListLe] at hxy hyz ⊢
        rcases Nat.lt_trichotomy a.toNat b.toNat with hab | hab | hab
        · rcases Nat.lt_trichotomy b.toNat c.toNat with hbc | hbc | hbc
          · simp [show a.toNat < c.toNat from by omega]
          · simp [show a.toNat < c.toNat from by omega]
          · simp [show ¬ b.toNat < c.toNat from by omega, hbc] at hyz
        · rcases Nat.lt_trichotomy b.toNat c.toNat with hbc | hbc | hbc
          · simp [show a.toNat < c.toNat from by omega]
          · have h1 : ¬ a.toNat < c.toNat := by omega
            have h2 : ¬ c.toNat < a.toNat := by omega
            simp [show ¬ a.toNat < b.toNat from by omega,
              show ¬ b.toNat < a.toNat from by omega] at hxy
            simp [show ¬ b.toNat < c.toNat from by omega,
              show ¬ c.toNat < b.toNat from by omega] at hyz
            simp [h1, h2]
            exact ih bs cs hxy hyz
          · simp [show ¬ b.toNat < c.toNat from by omega, hbc] at hyz
        · simp [show ¬ a.toNat < b.toNat from by omega, hab] at hxy

theorem charListLt_asymm :
    ∀ x y, charListLt x y = true → charListLt y x = true → False := by
  intro x
  induction x with
  | nil =>
    intro y h1 h2
    cases y with
    | nil => simp [charListLt] at h1
    | cons b bs => simp [charListLt] at h2
  | cons a as ih =>
    intro y h1 h2
    cases y with
    | nil => simp [charListLt] at h1
    | cons b bs =>
      simp only [charListLt] at h1 h2
      rcases Nat.lt_trichotomy a.toNat b.toNat with hab | hab | hab
      · simp [show ¬ b.toNat < a.toNat from by omega, hab] at h2
      · simp [show ¬ a.toNat < b.toNat from by omega,
          show ¬ b.toNat < a.toNat from by omega] at h1 h2
        exact ih bs h1 h2
      · simp [show ¬ a.toNat < b.toNat from by omega, hab] at h1

theorem charListLt_of_le_of_ne :
    ∀ x y, charListLe x y = true → x ≠ y → charListLt x y = true := by
  intro x
  induction x with
  | nil =>
    intro y hle hne
    cases y with
    | nil => exact absurd rfl hne
    | cons b bs => rfl
  | cons a as ih =>
    intro y hle hne
    cases y with
    | nil => simp [charListLe] at hle
    | cons b bs =>
      simp only [charListLe] at hle
      simp only [charListLt]
      rcases Nat.lt_trichotomy a.toNat b.toNat with hab | hab | hab
      · simp [hab]
      · have h1 : ¬ a.toNat < b.toNat := by omega
        have h2 : ¬ b.toNat < a.toNat := by omega
        have hab2 : a = b := by
          have h3 := congrArg Char.ofNat hab
          rwa [Char.ofNat_toNat, Char.ofNat_toNat] at h3
        subst hab2
        simp [h1] at hle
        simp [h1]
        exact ih bs hle (fun h => hne (by rw [h]))
      · simp [show ¬ a.toNat < b.toNat from by omega, hab] at hle

instance : IsTotal (String × PyVal) keyLe :=
  ⟨fun a b => charListLe_total a.1.data b.1.data⟩

instance : IsTrans (String × PyVal) keyLe :=
  ⟨fun a b c => charListLe_trans a.1.data b.1.data c.1.data⟩

instance : IsAntisymm (String × PyVal) keyLt :=
  ⟨fun a b h1 h2 => (charListLt_asymm a.1.data b.1.data h1 h2).elim⟩

theorem strData_ne {s t : String} (h : s ≠ t) : s.data ≠ t.data := by
  intro hd
  apply h
  cases s
  cases t
  exact congrArg String.mk hd

theorem pairwiseCombine {α : Type} {R S T : α → α → Prop}
    (h : ∀ a b, R a b → S a b → T a b) :
    ∀ {l : List α}, l.Pairwise R → l.Pairwise S → l.Pairwise T := by
  intro l
  induction l with
  | nil => intro _ _; exact List.Pairwise.nil
  | cons x xs ih =>
    intro hR hS
    rcases List.pairwise_cons.mp hR with ⟨hRx, hRxs⟩
    rcases List.pairwise_cons.mp hS with ⟨hSx, hSxs⟩
    exact List.Pairwise.cons (fun b hb => h _ _ (hRx b hb) (hSx b hb)) (ih hRxs hSxs)

theorem sorted_keyLt {l : List (String × PyVal)} (hnd : (l.map Prod.fst).Nodup)
    (hs : l.Sorted keyLe) : l.Sorted keyLt := by
  have hne : l.Pairwise (fun a b : String × PyVal => a.1 ≠ b.1) := List.pairwise_map.mp hnd
  exact pairwiseCombine
    (fun a b h1 h2 => charListLt_of_le_of_ne a.1.data b.1.data h1 (strData_ne h2)) hs hne

theorem sortPairs_eq_of_perm {m m' : List (String × PyVal)} (h : m.Perm m')
    (hnd : (m.map Prod.fst).Nodup) : sortPairs m = sortPairs m' := by
  have hp1 : (sortPairs m).Perm m := List.perm_insertionSort keyLe m
  have hp2 : (sortPairs m').Perm m' := List.perm_insertionSort keyLe m'
  have hp : (sortPairs m).Perm (sortPairs m') := (hp1.trans h).trans hp2.symm
  have hnd1 : ((sortPairs m).map Prod.fst).Nodup := ((hp1.map Prod.fst).nodup_iff).mpr hnd
  have hnd2 : ((sortPairs m').map Prod.fst).Nodup := by
    have hnd' : (m'.map Prod.fst).Nodup := ((h.map Prod.fst).nodup_iff).mp hnd
    exact ((hp2.map Prod.fst).nodup_iff).mpr hnd'
  exact List.eq_of_perm_of_sorted hp
    (sorted_keyLt hnd1 (List.sorted_insertionSort keyLe m))
    (sorted_keyLt hnd2 (List.sorted_insertionSort keyLe m'))

theorem lookup_cons (k : String) (v : PyVal) (a : List (String × PyVal)) (m : String) :
    lookupArg ((k, v) :: a) m = if m = k then some v else lookupArg a m := by
  simp only [lookupArg]
  by_cases h : m = k
  · simp [h]
  · simp [h, Ne.symm h]

theorem lookup_filter_ne (n m : String) (a : List (String × PyVal)) :
    lookupArg (a.filter (fun kv => kv.1 ≠ n)) m =
      if m = n then none else lookupArg a m := by
  induction a with
  | nil => simp only [List.filter_nil, lookupArg]; split <;> rfl
  | cons kv rest ih =>
    obtain ⟨k, v⟩ := kv
    by_cases hk : k = n
    · rw [show List.filter (fun kv => decide (kv.1 ≠ n)) ((k, v) :: rest) =
          List.filter (fun kv => decide (kv.1 ≠ n)) rest from by simp [List.filter_cons, hk]]
      rw [ih, lookup_cons]
      by_cases hm : m = n
      · simp [hm]
      · simp [hm, show ¬ m = k from fun h2 => hm (by rw [h2, hk])]
    · rw [show List.filter (fun kv => decide (kv.1 ≠ n)) ((k, v) :: rest) =
          (k, v) :: List.filter (fun kv => decide (kv.1 ≠ n)) rest from by
        simp [List.filter_cons, hk]]
      rw [lookup_cons, lookup_cons, ih]
      by_cases hm : m = k
      · simp [hm, show ¬ k = n from hk]
      · simp [hm]

theorem lookup_setArg (n : String) (v : PyVal) (a : List (String × PyVal)) (m : String) :
    lookupArg (setArg n v a) m = if m = n then some v else lookupArg a m := by
  unfold setArg
  rw [lookup_cons, lookup_filter_ne]
  by_cases h : m = n <;> simp [h]

theorem lookup_delArg (n : String) (a : List (String × PyVal)) (m : String) :
    lookupArg (delArg n a) m = if m = n then none else lookupArg a m :=
  lookup_filter_ne n m a

theorem mapOpt_length {α β : Type} {f : α → Option β} :
    ∀ {l : List α} {ys : List β}, mapOpt f l = some ys → ys.length = l.length := by
  intro l
  induction l with
  | nil =>
    intro ys h
    simp only [mapOpt, Option.some.injEq] at h
    rw [← h]
    rfl
  | cons x xs ih =>
    intro ys h
    simp only [mapOpt] at h
    cases hfx : f x with
    | none => rw [hfx] at h; exact absurd h (by simp)
    | some y =>
      rw [hfx] at h
      cases hxs : mapOpt f xs with
      | none => rw [hxs] at h; exact absurd h (by simp)
      | some ys2 =>
        rw [hxs] at h
        simp only [Option.some.injEq] at h
        rw [← h]
        simp [ih hxs]

theorem mapOpt_congr {α β : Type} {f g : α → Option β} :
    ∀ {l : List α}, (∀ x ∈ l, f x = g x) → mapOpt f l = mapOpt g l := by
  intro l
  induction l with
  | nil => intro _; rfl
  | cons x xs ih =>
    intro h
    simp only [mapOpt]
    rw [h x (by simp), ih (fun y hy => h y (by simp [hy]))]

theorem mapOpt_eq_none {α β : Type} {f : α → Option β} :
    ∀ {l : List α} {x : α}, x ∈ l → f x = none → mapOpt f l = none := by
  intro l
  induction l with
  | nil => intro x hx; cases hx
  | cons a as ih =>
    intro x hx hfx
    simp only [mapOpt]
    rcases List.mem_cons.mp hx with h | h
    · subst h
      rw [hfx]
    · rw [ih h hfx]
      cases f a <;> rfl

theorem format_ext (st : Statement) (a a' : List (String × PyVal))
    (h : ∀ c ∈ st.clauses, lookupArg a c.name = lookupArg a' c.name) :
    st.format a = st.format a' := by
  unfold Statement.format
  rw [mapOpt_congr (fun c hc => by rw [h c hc])]

theorem eqExcept_setArg {a a' : List (String × PyVal)} {bad : String}
    (h : EqExcept a a' bad) (k : String) (v : PyVal) :
    EqExcept (setArg k v a) (setArg k v a') bad := by
  intro n hn
  rw [lookup_setArg, lookup_setArg]
  by_cases hk : n = k
  · simp [hk]
  · simp only [if_neg hk]
    exact h n hn

theorem eqExcept_delArg {a a' : List (String × PyVal)} {bad : String}
    (h : EqExcept a a' bad) (k : String) :
    EqExcept (delArg k a) (delArg k a') bad := by
  intro n hn
  rw [lookup_delArg, lookup_delArg]
  by_cases hk : n = k
  · simp [hk]
  · simp only [if_neg hk]
    exact h n hn

theorem eqExcept_rename {a a' : List (String × PyVal)} {bad : String}
    (old new : String) (h : EqExcept a a' bad) (hold : old ≠ bad) :
    EqExcept (renameArg old new a) (renameArg old new a') bad := by
  unfold renameArg
  rw [h old hold]
  cases lookupArg a' old with
  | none => exact h
  | some v => exact eqExcept_setArg (eqExcept_delArg h old) new v

theorem eqExcept_cons_bad {bad : String} (v : PyVal) (a : List (String × PyVal)) :
    EqExcept ((bad, v) :: a) a bad := by
  intro n hn
  rw [lookup_cons, if_neg hn]

theorem runT_vBad (t : Transform) : runT t (.v .vBad) = none := by
  cases t <;> rfl

theorem strNeEmpty_of_prefix (a b : String) (h : a.data ≠ []) : a ++ b ≠ "" := by
  intro he
  apply h
  have hd := congrArg String.data he
  rw [String.data_append] at hd
  exact (List.append_eq_nil.mp hd).1

/-- C1: `build_where` renders a mapping's conditions sorted in ascending
lexical order of the key — its output is the rendering of the key-sorted
entry list, and it is invariant under any permutation of the mapping's
native iteration order — and in particular
`select('person', {'name like': 'Mosky%', 'age >': 20})` returns
`SELECT * FROM "person" WHERE "age" > 20 AND "name" LIKE 'Mosky%'`. -/
theorem where_map_order_invariant (m m' : List (String × PyVal))
    (hperm : m.Perm m') (hnd : (m.map Prod.fst).Nodup) :
    build_where (.vMap m) = renderConds (sortPairs m)
    ∧ (sortPairs m).Sorted keyLe
    ∧ build_where (.vMap m) = build_where (.vMap m')
    ∧ select (.vStr "person")
        (.vMap [("name like", .vStr "Mosky%"), ("age >", .vInt 20)]) (.vRaw "*") []
      = some "SELECT * FROM \"person\" WHERE \"age\" > 20 AND \"name\" LIKE 'Mosky%'" := by
  refine ⟨rfl, List.sorted_insertionSort keyLe m, ?_, by decide⟩
  show renderConds (sortPairs m) = renderConds (sortPairs m')
  rw [sortPairs_eq_of_perm hperm hnd]

theorem where_map_order_invariant_witness :
    build_where (.vMap [("b", .vInt 1), ("a", .vInt 2)])
      = build_where (.vMap [("a", .vInt 2), ("b", .vInt 1)])
    ∧ build_where (.vMap [("b", .vInt 1), ("a", .vInt 2)])
      = some "\"a\" = 2 AND \"b\" = 1" :=
  ⟨(where_map_order_invariant [("b", .vInt 1), ("a", .vInt 2)]
      [("a", .vInt 2), ("b", .vInt 1)]
      (List.Perm.swap ("a", PyVal.vInt 2) ("b", PyVal.vInt 1) []) (by decide)).2.2.1,
   by decide⟩

/-- C2: for an explicit ordered sequence of pairs, `build_where` renders
the conditions in exactly the sequence's order — its output is the
rendering of the pair list as given, with no sorting applied — as the
unsorted concrete instance shows. -/
theorem where_pairs_order_preserved (p : List (String × PyVal)) :
    build_where (.vPairs p)
      = (mapOpt (fun kv => renderCond kv.1 kv.2) p).map (String.intercalate " AND ")
    ∧ build_where (.vPairs [("b", .vInt 1), ("a", .vInt 2)])
      = some "\"b\" = 1 AND \"a\" = 2" :=
  ⟨rfl, by decide⟩

theorem where_pairs_order_preserved_witness :
    build_where (.vPairs [("b", .vInt 1), ("a", .vInt 2)])
      = some "\"b\" = 1 AND \"a\" = 2" :=
  (where_pairs_order_preserved [("b", PyVal.vInt 1), ("a", PyVal.vInt 2)]).2

/-- C3: when a condition key carries no recognised trailing operator
token, the operator is inferred from the value — `None` yields `IS` with
operand `NULL`, a non-string sequence yields `IN` with a parenthesised
comma list, and any other renderable value yields `=` — while a key with
a recognised trailing operator token such as `x >` uses that operator on
the remaining column name. -/
theorem operator_inference :
    (∀ k, splitKey k = none →
      renderCond k .vNone = some ("\"" ++ k ++ "\"" ++ " " ++ "IS" ++ " " ++ "NULL"))
    ∧ (∀ k l ss, splitKey k = none → mapOpt valueScalar l = some ss →
      renderCond k (.vSeq l)
        = some ("\"" ++ k ++ "\"" ++ " " ++ "IN" ++ " "
            ++ ("(" ++ String.intercalate ", " ss ++ ")")))
    ∧ (∀ k v s, splitKey k = none → v ≠ .vNone → (∀ l, v ≠ .vSeq l) →
      v ≠ .vParamAuto → valueScalar v = some s →
      renderCond k v = some ("\"" ++ k ++ "\"" ++ " " ++ "=" ++ " " ++ s))
    ∧ renderCond "x >" (.vInt 5) = some "\"x\" > 5" := by
  refine ⟨?_, ?_, ?_, by decide⟩
  · intro k h
    simp [renderCond, h, resolveParam, valueScalar, identifierScalar]
  · intro k l ss h hss
    simp [renderCond, h, resolveParam, hss, identifierScalar]
  · intro k v s h hnn hns hnp hs
    cases v with
    | vNone => exact absurd rfl hnn
    | vSeq l => exact absurd rfl (hns l)
    | vParamAuto => exact absurd rfl hnp
    | vMap l => simp [valueScalar] at hs
    | vPairs l => simp [valueScalar] at hs
    | vBad => simp [valueScalar] at hs
    | vStr s0 => simp [renderCond, h, resolveParam, hs, identifierScalar]
    | vInt n => simp [renderCond, h, resolveParam, hs, identifierScalar]
    | vRaw s0 => simp [renderCond, h, resolveParam, hs, identifierScalar]
    | vParamNamed n0 => simp [renderCond, h, resolveParam, hs, identifierScalar]

theorem operator_inference_witness :
    renderCond "name" .vNone = some ("\"" ++ "name" ++ "\"" ++ " " ++ "IS" ++ " " ++ "NULL")
    ∧ renderCond "person_id" (.vSeq [.vStr "andy", .vStr "bob"])
      = some ("\"" ++ "person_id" ++ "\"" ++ " " ++ "IN" ++ " "
          ++ ("(" ++ String.intercalate ", " ["'andy'", "'bob'"] ++ ")"))
    ∧ renderCond "x" (.vInt 5) = some ("\"" ++ "x" ++ "\"" ++ " " ++ "=" ++ " " ++ "5")
    ∧ renderCond "x >" (.vInt 5) = some "\"x\" > 5" :=
  ⟨operator_inference.1 "name" rfl,
   operator_inference.2.1 "person_id" [.vStr "andy", .vStr "bob"] ["'andy'", "'bob'"] rfl rfl,
   operator_inference.2.2.1 "x" (.vInt 5) "5" rfl
     (fun h => PyVal.noConfusion h) (fun _ h => PyVal.noConfusion h)
     (fun h => PyVal.noConfusion h) rfl,
   operator_inference.2.2.2⟩

/-- C4: `Statement.format` emits the non-empty clause renderings in
declaration order joined by single spaces: its output is the
space-intercalation of the non-empty members of the per-clause rendering
list, the emitted parts are a sublist of that declaration-order list (so
omission removes but never reorders), the empty renderings never appear,
and an absent binding (or `None`) always renders empty. -/
theorem format_joins_nonempty_in_order (st : Statement) (args : List (String × PyVal))
    (parts : List String)
    (h : mapOpt (fun c => c.format (lookupArg args c.name)) st.clauses = some parts) :
    st.format args = some (String.intercalate " " (parts.filter (fun p => p ≠ "")))
    ∧ parts.length = st.clauses.length
    ∧ (parts.filter (fun p => p ≠ "")).Sublist parts
    ∧ (∀ p ∈ parts.filter (fun p => p ≠ ""), p ≠ "")
    ∧ (∀ c : Clause, c.format none = some "" ∧ c.format (some .vNone) = some "") := by
  refine ⟨?_, mapOpt_length h, List.filter_sublist parts, ?_, fun c => ⟨rfl, rfl⟩⟩
  · unfold Statement.format
    rw [h]
    rfl
  · intro p hp
    have h2 := (List.mem_filter.mp hp).2
    simpa using h2

theorem format_joins_nonempty_in_order_witness :
    select_stat.format [("from", .vStr "person"), ("select", .vRaw "*"), ("limit", .vInt 3)]
      = some (String.intercalate " "
          ((["SELECT *", "FROM \"person\"", "", "", "", "", "", "LIMIT 3", ""]).filter
            (fun p => p ≠ ""))) :=
  (format_joins_nonempty_in_order select_stat
    [("from", .vStr "person"), ("select", .vRaw "*"), ("limit", .vInt 3)]
    ["SELECT *", "FROM \"person\"", "", "", "", "", "", "LIMIT 3", ""] rfl).1

/-- C5: `select('person', {'person_id': 'mosky'})` returns exactly
`SELECT * FROM "person" WHERE "person_id" = 'mosky'`, and the same string
results when the where argument is the explicit pair sequence
`(('person_id', 'mosky'),)`. -/
theorem select_person_id_example :
    select (.vStr "person") (.vMap [("person_id", .vStr "mosky")]) (.vRaw "*") []
      = some "SELECT * FROM \"person\" WHERE \"person_id\" = 'mosky'"
    ∧ select (.vStr "person") (.vPairs [("person_id", .vStr "mosky")]) (.vRaw "*") []
      = some "SELECT * FROM \"person\" WHERE \"person_id\" = 'mosky'" :=
  ⟨by decide, by decide⟩

/-- C6: a bare `param` sentinel takes its placeholder name from the
enclosing column key, rendering as `%(column)s`, while
`param('my_param')` under column `custom_param` renders as
`%(my_param)s`. -/
theorem param_auto_binds_column (k : String) (h : splitKey k = none) :
    renderCond k .vParamAuto
      = some ("\"" ++ k ++ "\"" ++ " " ++ "=" ++ " " ++ ("%(" ++ k ++ ")s"))
    ∧ renderCond "custom_param" (.vParamNamed "my_param")
      = some "\"custom_param\" = %(my_param)s" := by
  constructor
  · simp [renderCond, h, resolveParam, valueScalar, identifierScalar]
  · decide

theorem param_auto_binds_column_witness :
    renderCond "auto_param" .vParamAuto
      = some ("\"" ++ "auto_param" ++ "\"" ++ " " ++ "=" ++ " "
          ++ ("%(" ++ "auto_param" ++ ")s"))
    ∧ renderCond "custom_param" (.vParamNamed "my_param")
      = some "\"custom_param\" = %(my_param)s" :=
  param_auto_binds_column "auto_param" rfl

/-- C7: a bound value that no scalar formatter can render makes the whole
`Statement.format` fail (`FormatError`, modelled as `none`): whenever some
clause of the statement is bound to such a value, the format produces no
output string at all, so a result is either a complete statement or
nothing. -/
theorem format_error_propagates (st : Statement) (args : List (String × PyVal)) (c : Clause)
    (hc : c ∈ st.clauses) (hbad : lookupArg args c.name = some .vBad)
    (hp : c.pipeline ≠ []) :
    st.format args = none := by
  have hcf : c.format (lookupArg args c.name) = none := by
    rw [hbad]
    cases hpl : c.pipeline with
    | nil => exact absurd hpl hp
    | cons t ts =>
      simp [Clause.format, hpl, runPipeline, runT_vBad]
  unfold Statement.format
  rw [mapOpt_eq_none hc hcf]
  rfl

theorem format_error_propagates_witness :
    select_stat.format [("limit", .vBad)] = none :=
  format_error_propagates select_stat [("limit", .vBad)] limit_cl (by decide) rfl (by decide)

/-- C8: `Statement.format` is a pure function of its arguments mapping
restricted to the statement's clause names: any two mappings that bind
every clause name equally format to the same string, so equal inputs give
identical outputs and the immutable clause templates are the only other
ingredient of the result. -/
theorem format_pure (st : Statement) (a a' : List (String × PyVal))
    (h : ∀ c ∈ st.clauses, lookupArg a c.name = lookupArg a' c.name) :
    st.format a = st.format a' :=
  format_ext st a a' h

theorem format_pure_witness :
    select_stat.format [("limit", .vInt 3), ("from", .vStr "person")]
      = select_stat.format [("from", .vStr "person"), ("extra", .vBad), ("limit", .vInt 3)] :=
  format_pure select_stat [("limit", .vInt 3), ("from", .vStr "person")]
    [("from", .vStr "person"), ("extra", .vBad), ("limit", .vInt 3)]
    (by intro c hc; fin_cases hc <;> rfl)

/-- C9: the select statement template contains no `returning` clause —
unlike the insert, update and delete templates, which do — so a
`returning` override passed to `select` never changes the output: the
result equals that of the same call without the override. -/
theorem select_ignores_returning (t w s v : PyVal) (extra : List (String × PyVal)) :
    ("returning" ∉ select_stat.clauses.map Clause.name
      ∧ "returning" ∈ insert_into_stat.clauses.map Clause.name
      ∧ "returning" ∈ update_stat.clauses.map Clause.name
      ∧ "returning" ∈ delete_stat.clauses.map Clause.name)
    ∧ select t w s (("returning", v) :: extra) = select t w s extra := by
  refine ⟨⟨by decide, by decide, by decide, by decide⟩, ?_⟩
  unfold select
  apply format_ext
  intro c hc
  have hname : ∀ c2 ∈ select_stat.clauses, c2.name ≠ "returning" := by decide
  have h0 : EqExcept (("returning", v) :: extra) extra "returning" :=
    eqExcept_cons_bad v extra
  have h5 : EqExcept
      (renameArg "group_by" "group by"
        (renameArg "order_by" "order by"
          (setArg "select" s (setArg "where" w
            (setArg "from" t (("returning", v) :: extra))))))
      (renameArg "group_by" "group by"
        (renameArg "order_by" "order by"
          (setArg "select" s (setArg "where" w (setArg "from" t extra)))))
      "returning" :=
    eqExcept_rename "group_by" "group by"
      (eqExcept_rename "order_by" "order by"
        (eqExcept_setArg (eqExcept_setArg (eqExcept_setArg h0 "from" t) "where" w)
          "select" s)
        (by decide))
      (by decide)
  exact h5 c.name (hname c hc)

theorem select_ignores_returning_witness :
    select (.vStr "person") (.vMap [("person_id", .vStr "mosky")]) (.vRaw "*")
        [("returning", .vRaw "*")]
      = select (.vStr "person") (.vMap [("person_id", .vStr "mosky")]) (.vRaw "*") [] :=
  (select_ignores_returning (PyVal.vStr "person")
    (PyVal.vMap [("person_id", PyVal.vStr "mosky")]) (PyVal.vRaw "*") (PyVal.vRaw "*") []).2

/-- C10: `insert` called with an explicit `values` argument and
`pairs_or_columns` left as `None` omits the columns fragment entirely:
the output is `INSERT INTO "table" VALUES (...)`, with no parenthesised
column list between the table name and `VALUES`. -/
theorem insert_without_columns (tbl : String) (vs : List PyVal) (ss : List String)
    (hvs : mapOpt valueScalar vs = some ss)
    (hne : String.intercalate ", " ss ≠ "") :
    insert (.vStr tbl) .vNone (.vSeq vs) []
      = some ("INSERT INTO" ++ " " ++ ("\"" ++ tbl ++ "\"") ++ " "
          ++ ("VALUES" ++ " " ++ ("(" ++ String.intercalate ", " ss ++ ")"))) := by
  have hq : ("\"" ++ tbl ++ "\"") ≠ "" := by
    apply strNeEmpty_of_prefix
    rw [String.data_append]
    simp
  have hparen : ("(" ++ String.intercalate ", " ss ++ ")") ≠ "" := by
    apply strNeEmpty_of_prefix
    rw [String.data_append]
    simp
  have hstep : insert (.vStr tbl) .vNone (.vSeq vs) []
      = Statement.format insert_into_stat
          (setArg "values" (PyVal.vSeq vs)
            (setArg "columns" PyVal.vNone (setArg "insert into" (PyVal.vStr tbl) []))) := rfl
  rw [hstep]
  simp only [Statement.format, insert_into_stat, mapOpt, insert_cl, columns_cl, values_cl,
    returning_cl, lookup_setArg, lookupArg, Clause.format, runPipeline, runT,
    single_identifier, identifier_list, identifierScalar, hvs]
  have hu1 : upperStr "insert into" = "INSERT INTO" := rfl
  have hu2 : upperStr "values" = "VALUES" := rfl
  have hp1 : ("INSERT INTO " ++ ("\"" ++ tbl ++ "\"")) ≠ "" :=
    strNeEmpty_of_prefix "INSERT INTO " ("\"" ++ tbl ++ "\"") (by decide)
  have hp3 : ("VALUES " ++ ("(" ++ String.intercalate ", " ss ++ ")")) ≠ "" :=
    strNeEmpty_of_prefix "VALUES " ("(" ++ String.intercalate ", " ss ++ ")") (by decide)
  simp [hq, hparen, hne, hu1, hu2, hp1, hp3, hvs]
  rfl

theorem insert_without_columns_witness :
    insert (.vStr "person") .vNone (.vSeq [.vStr "mosky", .vStr "Mosky Liu"]) []
      = some ("INSERT INTO" ++ " " ++ ("\"" ++ "person" ++ "\"") ++ " "
          ++ ("VALUES" ++ " "
            ++ ("(" ++ String.intercalate ", " ["'mosky'", "'Mosky Liu'"] ++ ")"))) :=
  insert_without_columns "person" [.vStr "mosky", .vStr "Mosky Liu"]
    ["'mosky'", "'Mosky Liu'"] rfl (by decide)

end Mosql
